import Mathlib

/-!
Verification model of the okteto kubetoken cache and client
(package okteto: FileByteStore, KubeTokenCache, KubeTokenClient).

The Go source stores a JSON-encoded list of (context, namespace, token)
registers behind a byte store and fetches fresh tokens over HTTP.
Here the byte level is modelled symbolically: a byte blob is either a
valid encoding of a register list or an invalid blob, and token strings
are either the pretty re-encoding produced by json.MarshalIndent, one of
the raw wire encodings of a token, the empty string, or arbitrary bytes.
I/O failures of the backing store are modelled by injectable failure
flags, and every call to the byte store's Set is counted so that frame
properties about writes can be stated.
-/

instance {ε α : Type} [DecidableEq ε] [DecidableEq α] :
    DecidableEq (Except ε α) := fun a b =>
  match a, b with
  | Except.ok x, Except.ok y =>
      if h : x = y then isTrue (by rw [h])
      else isFalse (by intro hc; cases hc; exact h rfl)
  | Except.error x, Except.error y =>
      if h : x = y then isTrue (by rw [h])
      else isFalse (by intro hc; cases hc; exact h rfl)
  | Except.ok _, Except.error _ => isFalse (by intro hc; cases hc)
  | Except.error _, Except.ok _ => isFalse (by intro hc; cases hc)

/-- The part of authenticationv1.TokenRequest the cache interprets: the
expiration instant (Status.ExpirationTimestamp, as an integer instant);
the rest of the payload is opaque and must round-trip through
serialization unchanged. -/
structure TokenRequest where
  expirationTimestamp : Int
  payload : String
deriving DecidableEq, Repr

/-- One entry of the persisted cache: Go struct storeRegister with fields
ContextName, Namespace and Token. -/
structure storeRegister where
  ContextName : String
  Namespace : String
  Token : TokenRequest
deriving DecidableEq, Repr

/-- A byte blob held by the backing store: either a valid JSON encoding of
a list of storeRegister (the bootstrap literal and json.MarshalIndent
output both decode to the list they encode), or bytes that do not decode
as such a list. -/
inductive StoreBytes where
  | encodedStore (entries : List storeRegister) : StoreBytes
  | invalidBytes (s : String) : StoreBytes
deriving DecidableEq, Repr

/-- json.Unmarshal of the store bytes into a list of storeRegister. -/
def jsonUnmarshalStore : StoreBytes → Option (List storeRegister)
  | StoreBytes.encodedStore entries => some entries
  | StoreBytes.invalidBytes _ => none

/-- A Go string carrying a token (or not): the pretty re-encoding returned
by a cache hit (json.MarshalIndent with tab indentation), a raw wire
encoding of a token as received in an HTTP body (several distinct byte
layouts may encode the same token, hence the variant index), the empty
string used as the cache-miss result, or arbitrary non-token bytes. -/
inductive GoString where
  | emptyString : GoString
  | tokenPretty (t : TokenRequest) : GoString
  | tokenRaw (t : TokenRequest) (variant : Nat) : GoString
  | otherBytes (s : String) : GoString
deriving DecidableEq, Repr

/-- json.Unmarshal of a body into a TokenRequest: both the pretty and the
raw layouts decode to the token they encode; anything else fails. -/
def unmarshalTokenRequest : GoString → Option TokenRequest
  | GoString.tokenPretty t => some t
  | GoString.tokenRaw t _ => some t
  | GoString.emptyString => none
  | GoString.otherBytes _ => none

/-- json.MarshalIndent of a token, as returned on a cache hit. -/
def marshalIndentToken (t : TokenRequest) : GoString :=
  GoString.tokenPretty t

/-- State of the backing byte store (FileByteStore over one file).
contents = none models a file that does not exist yet; getFails and
setFails inject the I/O failures (stat/read/create on Get, write on Set);
setCalls counts how many times the store's Set was invoked. -/
structure ByteStoreState where
  contents : Option StoreBytes
  getFails : Bool
  setFails : Bool
  setCalls : Nat
deriving DecidableEq, Repr

/-- The error taxonomy of the cache layer: storage I/O errors surfaced by
the byte store, and the decode error produced by KubeTokenCache.read when
the persisted bytes do not unmarshal. -/
inductive CacheError where
  | storageError (msg : String) : CacheError
  | decodeError : CacheError
deriving DecidableEq, Repr

/-- FileByteStore.Get: if the file does not exist, create it holding the
empty-list literal and return the (re-read) contents; otherwise return
the raw contents verbatim. Stat/create/read failures are injected through
getFails. The bootstrap write uses os.WriteFile directly, not the store's
Set, so setCalls is untouched. -/
def FileByteStore.Get (s : ByteStoreState) :
    Except CacheError StoreBytes × ByteStoreState :=
  if s.getFails then
    (Except.error (CacheError.storageError "error reading file"), s)
  else
    match s.contents with
    | none =>
        (Except.ok (StoreBytes.encodedStore []),
         { s with contents := some (StoreBytes.encodedStore []) })
    | some b => (Except.ok b, s)

/-- FileByteStore.Set: whole-resource overwrite of the backing file with
the given bytes; a write failure is injected through setFails. Every
invocation is counted in setCalls. -/
def FileByteStore.Set (value : StoreBytes) (s : ByteStoreState) :
    Except CacheError Unit × ByteStoreState :=
  if s.setFails then
    (Except.error (CacheError.storageError "error writing file"),
     { s with setCalls := s.setCalls + 1 })
  else
    (Except.ok (),
     { s with contents := some value, setCalls := s.setCalls + 1 })

/-- KubeTokenCache.read: fetch the bytes from the store and unmarshal them
into a list of storeRegister; a failed unmarshal yields the decode error
and leaves the store untouched. -/
def KubeTokenCache.read (s : ByteStoreState) :
    Except CacheError (List storeRegister) × ByteStoreState :=
  match FileByteStore.Get s with
  | (Except.error e, s1) => (Except.error e, s1)
  | (Except.ok contents, s1) =>
      match jsonUnmarshalStore contents with
      | none => (Except.error CacheError.decodeError, s1)
      | some store => (Except.ok store, s1)

/-- The loop guard of Get and setWithErr: register.ContextName ==
contextName && register.Namespace == namespace. -/
def matchesKey (contextName ns : String) (r : storeRegister) : Bool :=
  r.ContextName == contextName && r.Namespace == ns

/-- KubeTokenCache.Get: read the store, scan for the first register whose
key matches, and if its token expires strictly after now return the token
re-encoded with json.MarshalIndent; an expired or absent entry yields the
empty string with no error. -/
def KubeTokenCache.Get (contextName ns : String) (now : Int)
    (s : ByteStoreState) : Except CacheError GoString × ByteStoreState :=
  match KubeTokenCache.read s with
  | (Except.error e, s1) => (Except.error e, s1)
  | (Except.ok store, s1) =>
      match store.find? (matchesKey contextName ns) with
      | some register =>
          if now < register.Token.expirationTimestamp then
            (Except.ok (marshalIndentToken register.Token), s1)
          else
            (Except.ok GoString.emptyString, s1)
      | none => (Except.ok GoString.emptyString, s1)

/-- The in-memory update performed by KubeTokenCache.setWithErr: the loop
overwrites the Token of every register whose key matches (leaving it at
its position), and when no register matched, a fresh register is appended
at the end. -/
def upsertStore (contextName ns : String) (token : TokenRequest)
    (store : List storeRegister) : List storeRegister :=
  if store.any (matchesKey contextName ns) then
    store.map fun r =>
      if matchesKey contextName ns r then { r with Token := token } else r
  else
    store ++ [{ ContextName := contextName, Namespace := ns, Token := token }]

/-- KubeTokenCache.setWithErr: read the store, upsert the register for the
key in memory, re-marshal the whole list (json.MarshalIndent of a list of
these structs cannot fail) and persist it through the store's Set,
propagating read and persist failures. -/
def KubeTokenCache.setWithErr (contextName ns : String)
    (token : TokenRequest) (s : ByteStoreState) :
    Except CacheError Unit × ByteStoreState :=
  match KubeTokenCache.read s with
  | (Except.error e, s1) => (Except.error e, s1)
  | (Except.ok store, s1) =>
      FileByteStore.Set
        (StoreBytes.encodedStore (upsertStore contextName ns token store)) s1

/-- KubeTokenCache.Set: convenience wrapper around setWithErr that
discards the error and yields only the resulting store state. -/
def KubeTokenCache.Set (contextName ns : String) (token : TokenRequest)
    (s : ByteStoreState) : ByteStoreState :=
  (KubeTokenCache.setWithErr contextName ns token s).2

/-- An HTTP response as seen by GetKubeToken: the numeric status code, the
literal status text, and the outcome of io.ReadAll on the body. -/
structure HttpResponse where
  StatusCode : Nat
  Status : String
  Body : Except String GoString
deriving DecidableEq, Repr

/-- Outcome of httpClient.Get: a transport-level failure or a response. -/
inductive HttpResult where
  | transportError (msg : String) : HttpResult
  | response (r : HttpResponse) : HttpResult
deriving DecidableEq, Repr

/-- The error taxonomy of GetKubeToken. -/
inductive ClientError where
  | networkError (msg : String) : ClientError
  | authenticationError (contextName : String) : ClientError
  | unexpectedStatusError (status : String) : ClientError
  | readError (msg : String) : ClientError
  | tokenDecodeError : ClientError
deriving DecidableEq, Repr

/-- The fields of KubeTokenClient the fetch path uses; the http client and
resolved url are represented by the HttpResult passed to GetKubeToken. -/
structure KubeTokenClient where
  contextName : String
  ns : String
deriving DecidableEq, Repr

/-- KubeTokenClient.GetKubeToken: classify the HTTP outcome (transport
failure, 401, other non-200), read and decode the body, cache the decoded
token best-effort through KubeTokenCache.Set, and return the raw body
string unchanged. -/
def KubeTokenClient.GetKubeToken (c : KubeTokenClient) (h : HttpResult)
    (s : ByteStoreState) : Except ClientError GoString × ByteStoreState :=
  match h with
  | HttpResult.transportError msg =>
      (Except.error (ClientError.networkError msg), s)
  | HttpResult.response r =>
      if r.StatusCode == 401 then
        (Except.error (ClientError.authenticationError c.contextName), s)
      else if r.StatusCode != 200 then
        (Except.error (ClientError.unexpectedStatusError r.Status), s)
      else
        match r.Body with
        | Except.error msg => (Except.error (ClientError.readError msg), s)
        | Except.ok body =>
            match unmarshalTokenRequest body with
            | none => (Except.error ClientError.tokenDecodeError, s)
            | some token =>
                (Except.ok body, KubeTokenCache.Set c.contextName c.ns token s)

/-- Store contents over which a read cannot fail at the cache layer: a
missing file (bootstrapped on first access) or a valid encoding. -/
def readableContents : Option StoreBytes → Bool
  | none => true
  | some (StoreBytes.encodedStore _) => true
  | some (StoreBytes.invalidBytes _) => false

/-- Distinct composite keys, the relation underlying the at-most-one-entry
invariant. -/
def distinctKeys (a b : storeRegister) : Prop :=
  ¬(a.ContextName = b.ContextName ∧ a.Namespace = b.Namespace)

instance : DecidableRel distinctKeys := fun a b => by
  unfold distinctKeys; infer_instance

/-- Reading a store that holds a valid encoding succeeds and leaves the
state untouched. -/
theorem read_encoded (s : ByteStoreState) (store : List storeRegister)
    (hc : s.contents = some (StoreBytes.encodedStore store))
    (hg : s.getFails = false) :
    KubeTokenCache.read s = (Except.ok store, s) := by
  simp [KubeTokenCache.read, FileByteStore.Get, hc, hg, jsonUnmarshalStore]

/-- Reading a store whose backing file is missing bootstraps it to the
empty encoding and yields the empty list. -/
theorem read_missing (s : ByteStoreState)
    (hc : s.contents = none) (hg : s.getFails = false) :
    KubeTokenCache.read s =
      (Except.ok ([] : List storeRegister),
       { s with contents := some (StoreBytes.encodedStore []) }) := by
  simp [KubeTokenCache.read, FileByteStore.Get, hc, hg, jsonUnmarshalStore]

/-- Reading a store that holds undecodable bytes yields the decode error
and leaves the state untouched. -/
theorem read_invalid (s : ByteStoreState) (bytes : String)
    (hc : s.contents = some (StoreBytes.invalidBytes bytes))
    (hg : s.getFails = false) :
    KubeTokenCache.read s = (Except.error CacheError.decodeError, s) := by
  simp [KubeTokenCache.read, FileByteStore.Get, hc, hg, jsonUnmarshalStore]

/-- The store state coming out of Get is exactly the state coming out of
the underlying read: the lookup and expiration check are pure. -/
theorem get_state_eq_read_state (contextName ns : String) (now : Int)
    (s : ByteStoreState) :
    (KubeTokenCache.Get contextName ns now s).2 = (KubeTokenCache.read s).2 := by
  unfold KubeTokenCache.Get
  rcases h : KubeTokenCache.read s with ⟨res, s1⟩
  cases res with
  | error e => simp
  | ok store =>
      cases hf : store.find? (matchesKey contextName ns) with
      | none => simp [hf]
      | some r =>
          by_cases hexp : now < r.Token.expirationTimestamp <;> simp [hf, hexp]

/-- The read step never calls the store's Set and preserves existing
contents (the bootstrap write only fires when no contents exist). -/
theorem read_frame (s : ByteStoreState) :
    (KubeTokenCache.read s).2.setCalls = s.setCalls ∧
    ∀ b, s.contents = some b → (KubeTokenCache.read s).2.contents = some b := by
  obtain ⟨cont, gf, sf, sc⟩ := s
  cases gf with
  | true => simp [KubeTokenCache.read, FileByteStore.Get]
  | false =>
      cases cont with
      | none =>
          simp [KubeTokenCache.read, FileByteStore.Get, jsonUnmarshalStore]
      | some b =>
          cases b with
          | encodedStore store =>
              simp [KubeTokenCache.read, FileByteStore.Get, jsonUnmarshalStore]
          | invalidBytes bytes =>
              simp [KubeTokenCache.read, FileByteStore.Get, jsonUnmarshalStore]

/-- A successful setWithErr over readable contents: the read yields some
list and the final state holds exactly the upsert of that list, with one
Set call recorded. -/
theorem setWithErr_readable (contextName ns : String) (token : TokenRequest)
    (s : ByteStoreState)
    (hg : s.getFails = false) (hs : s.setFails = false)
    (hr : readableContents s.contents = true) :
    ∃ store, (KubeTokenCache.read s).1 = Except.ok store ∧
      KubeTokenCache.setWithErr contextName ns token s =
        (Except.ok (),
         { s with
             contents := some (StoreBytes.encodedStore
               (upsertStore contextName ns token store)),
             setCalls := s.setCalls + 1 }) := by
  obtain ⟨cont, gf, sf, sc⟩ := s
  simp only at hg hs hr
  subst hg hs
  cases cont with
  | none =>
      refine ⟨[], ?_, ?_⟩
      · rw [read_missing ⟨none, false, false, sc⟩ rfl rfl]
      · simp [KubeTokenCache.setWithErr,
          read_missing ⟨none, false, false, sc⟩ rfl rfl, FileByteStore.Set]
  | some b =>
      cases b with
      | encodedStore store =>
          refine ⟨store, ?_, ?_⟩
          · rw [read_encoded ⟨some (StoreBytes.encodedStore store),
              false, false, sc⟩ store rfl rfl]
          · simp [KubeTokenCache.setWithErr,
              read_encoded ⟨some (StoreBytes.encodedStore store),
                false, false, sc⟩ store rfl rfl, FileByteStore.Set]
      | invalidBytes bytes => simp [readableContents] at hr

/-- On a 200 response whose body decodes, GetKubeToken is exactly: cache
the decoded token best-effort and return the raw body. -/
theorem getKubeToken_200_eq (c : KubeTokenClient) (resp : HttpResponse)
    (body : GoString) (token : TokenRequest) (s : ByteStoreState)
    (h200 : resp.StatusCode = 200) (hbody : resp.Body = Except.ok body)
    (hdec : unmarshalTokenRequest body = some token) :
    KubeTokenClient.GetKubeToken c (HttpResult.response resp) s =
      (Except.ok body, KubeTokenCache.Set c.contextName c.ns token s) := by
  obtain ⟨sc, st, bd⟩ := resp
  simp only at h200 hbody
  subst h200 hbody
  simp [KubeTokenClient.GetKubeToken, hdec]

/-- C5: GetKubeToken on a 401 fails with the authentication error naming
the client's context, and on any other non-200 status fails with the
unexpected-status error carrying the literal status text; in both cases
the store state, hence the cache, is untouched. -/
theorem getKubeToken_status_errors (c : KubeTokenClient)
    (resp : HttpResponse) (s : ByteStoreState) :
    (resp.StatusCode = 401 →
      KubeTokenClient.GetKubeToken c (HttpResult.response resp) s =
        (Except.error (ClientError.authenticationError c.contextName), s)) ∧
    (resp.StatusCode ≠ 401 → resp.StatusCode ≠ 200 →
      KubeTokenClient.GetKubeToken c (HttpResult.response resp) s =
        (Except.error (ClientError.unexpectedStatusError resp.Status), s)) := by
  constructor
  · intro h
    simp [KubeTokenClient.GetKubeToken, h]
  · intro h1 h2
    simp [KubeTokenClient.GetKubeToken, h1, h2]

theorem getKubeToken_status_errors_witness :
    (KubeTokenClient.GetKubeToken ⟨"ctx1", "ns1"⟩
        (HttpResult.response ⟨401, "401 Unauthorized",
          Except.ok GoString.emptyString⟩)
        ⟨some (StoreBytes.encodedStore []), false, false, 0⟩ =
      (Except.error (ClientError.authenticationError "ctx1"),
       ⟨some (StoreBytes.encodedStore []), false, false, 0⟩)) ∧
    (KubeTokenClient.GetKubeToken ⟨"ctx1", "ns1"⟩
        (HttpResult.response ⟨500, "500 Internal Server Error",
          Except.ok GoString.emptyString⟩)
        ⟨some (StoreBytes.encodedStore []), false, false, 0⟩ =
      (Except.error
        (ClientError.unexpectedStatusError "500 Internal Server Error"),
       ⟨some (StoreBytes.encodedStore []), false, false, 0⟩)) :=
  ⟨(getKubeToken_status_errors ⟨"ctx1", "ns1"⟩ _ _).1 rfl,
   (getKubeToken_status_errors ⟨"ctx1", "ns1"⟩ _ _).2
     (by decide) (by decide)⟩

/-- C6: when the backing bytes are not a valid encoding of a register
list, both Get and setWithErr fail with the decode error and the state,
in particular the stored bytes, is left exactly as it was. -/
theorem corrupt_store_decode_error (contextName ns : String) (now : Int)
    (token : TokenRequest) (s : ByteStoreState) (bytes : String)
    (hc : s.contents = some (StoreBytes.invalidBytes bytes))
    (hg : s.getFails = false) :
    KubeTokenCache.Get contextName ns now s =
      (Except.error CacheError.decodeError, s) ∧
    KubeTokenCache.setWithErr contextName ns token s =
      (Except.error CacheError.decodeError, s) := by
  constructor
  · simp [KubeTokenCache.Get, read_invalid s bytes hc hg]
  · simp [KubeTokenCache.setWithErr, read_invalid s bytes hc hg]

theorem corrupt_store_decode_error_witness :
    KubeTokenCache.Get "ctx1" "ns1" 0
        ⟨some (StoreBytes.invalidBytes "not json"), false, false, 0⟩ =
      (Except.error CacheError.decodeError,
       ⟨some (StoreBytes.invalidBytes "not json"), false, false, 0⟩) ∧
    KubeTokenCache.setWithErr "ctx1" "ns1" ⟨10, "p"⟩
        ⟨some (StoreBytes.invalidBytes "not json"), false, false, 0⟩ =
      (Except.error CacheError.decodeError,
       ⟨some (StoreBytes.invalidBytes "not json"), false, false, 0⟩) :=
  corrupt_store_decode_error "ctx1" "ns1" 0 ⟨10, "p"⟩ _ "not json" rfl rfl

/-- C7: Get never invokes the byte store's Set (the Set-call counter is
unchanged) and existing backing contents are preserved verbatim on the
miss, expired and hit paths alike. -/
theorem get_frame_no_set (contextName ns : String) (now : Int)
    (s : ByteStoreState) :
    (KubeTokenCache.Get contextName ns now s).2.setCalls = s.setCalls ∧
    ∀ b, s.contents = some b →
      (KubeTokenCache.Get contextName ns now s).2.contents = some b := by
  have h := read_frame s
  rw [get_state_eq_read_state]
  exact h

theorem get_frame_no_set_witness :
    (KubeTokenCache.Get "ctx1" "ns1" 50
        ⟨some (StoreBytes.encodedStore [⟨"ctx1", "ns1", ⟨0, "expired"⟩⟩]),
         false, false, 0⟩).2.setCalls = 0 ∧
    (KubeTokenCache.Get "ctx1" "ns1" 50
        ⟨some (StoreBytes.encodedStore [⟨"ctx1", "ns1", ⟨0, "expired"⟩⟩]),
         false, false, 0⟩).2.contents =
      some (StoreBytes.encodedStore [⟨"ctx1", "ns1", ⟨0, "expired"⟩⟩]) :=
  ⟨(get_frame_no_set "ctx1" "ns1" 50 _).1,
   (get_frame_no_set "ctx1" "ns1" 50 _).2 _ rfl⟩

/-- C8: a cache-write failure never fails GetKubeToken: over any store
state at all (including one whose Set always fails), a 200 response with
a decodable body yields the raw body with no error. -/
theorem getKubeToken_ignores_cache_write_failure (c : KubeTokenClient)
    (resp : HttpResponse) (body : GoString) (token : TokenRequest)
    (s : ByteStoreState) (h200 : resp.StatusCode = 200)
    (hbody : resp.Body = Except.ok body)
    (hdec : unmarshalTokenRequest body = some token) :
    (KubeTokenClient.GetKubeToken c (HttpResult.response resp) s).1 =
      Except.ok body := by
  rw [getKubeToken_200_eq c resp body token s h200 hbody hdec]

theorem getKubeToken_ignores_cache_write_failure_witness :
    (KubeTokenClient.GetKubeToken ⟨"ctx1", "ns1"⟩
        (HttpResult.response ⟨200, "200 OK",
          Except.ok (GoString.tokenRaw ⟨100, "p"⟩ 3)⟩)
        ⟨some (StoreBytes.encodedStore []), false, true, 0⟩).1 =
      Except.ok (GoString.tokenRaw ⟨100, "p"⟩ 3) :=
  getKubeToken_ignores_cache_write_failure ⟨"ctx1", "ns1"⟩ _ _ ⟨100, "p"⟩ _
    rfl rfl rfl

/-- C9: when the backing resource does not exist, the byte store's Get
initializes it to the empty encoding and returns it, and a cache Get on
any key then yields the empty cache-miss string with no error, leaving
the backing resource holding the empty sequence. -/
theorem bootstrap_missing_store (contextName ns : String) (now : Int)
    (s : ByteStoreState) (hc : s.contents = none) (hg : s.getFails = false) :
    FileByteStore.Get s =
      (Except.ok (StoreBytes.encodedStore []),
       { s with contents := some (StoreBytes.encodedStore []) }) ∧
    KubeTokenCache.Get contextName ns now s =
      (Except.ok GoString.emptyString,
       { s with contents := some (StoreBytes.encodedStore []) }) := by
  constructor
  · simp [FileByteStore.Get, hc, hg]
  · simp [KubeTokenCache.Get, read_missing s hc hg]

theorem bootstrap_missing_store_witness :
    FileByteStore.Get (⟨none, false, false, 0⟩ : ByteStoreState) =
      (Except.ok (StoreBytes.encodedStore []),
       ⟨some (StoreBytes.encodedStore []), false, false, 0⟩) ∧
    KubeTokenCache.Get "ctx1" "ns1" 0 ⟨none, false, false, 0⟩ =
      (Except.ok GoString.emptyString,
       ⟨some (StoreBytes.encodedStore []), false, false, 0⟩) :=
  bootstrap_missing_store "ctx1" "ns1" 0 ⟨none, false, false, 0⟩ rfl rfl

/-- C10: with duplicate entries for one key in the persisted list, Get is
decided by the first matching entry alone: if that one is not strictly
unexpired, Get returns the empty cache-miss result, whatever comes
later in the list. -/
theorem get_first_match_decides (contextName ns : String) (now : Int)
    (s : ByteStoreState) (store : List storeRegister) (r : storeRegister)
    (hc : s.contents = some (StoreBytes.encodedStore store))
    (hg : s.getFails = false)
    (hfind : store.find? (matchesKey contextName ns) = some r)
    (hexp : ¬now < r.Token.expirationTimestamp) :
    KubeTokenCache.Get contextName ns now s =
      (Except.ok GoString.emptyString, s) := by
  simp [KubeTokenCache.Get, read_encoded s store hc hg, hfind, hexp]

theorem get_first_match_decides_witness :
    KubeTokenCache.Get "ctx1" "ns1" 50
        ⟨some (StoreBytes.encodedStore
          [⟨"ctx1", "ns1", ⟨0, "stale"⟩⟩, ⟨"ctx1", "ns1", ⟨100, "fresh"⟩⟩]),
         false, false, 0⟩ =
      (Except.ok GoString.emptyString,
       ⟨some (StoreBytes.encodedStore
          [⟨"ctx1", "ns1", ⟨0, "stale"⟩⟩, ⟨"ctx1", "ns1", ⟨100, "fresh"⟩⟩]),
        false, false, 0⟩) ∧
    (50 : Int) < 100 :=
  ⟨get_first_match_decides "ctx1" "ns1" 50 _ _ ⟨"ctx1", "ns1", ⟨0, "stale"⟩⟩
      rfl rfl (by decide) (by decide),
   by decide⟩

/-- Overwriting the Token field never changes the key fields, hence not
the loop guard either. -/
theorem matchesKey_set_token (contextName ns : String) (r : storeRegister)
    (token : TokenRequest) :
    matchesKey contextName ns { r with Token := token } =
      matchesKey contextName ns r := rfl

/-- C3: with a first matching register r in the decoded store, Get returns
the re-encoded token exactly when the expiration is strictly after now;
an expiration equal to now counts as expired and Get returns the empty
cache-miss string with no error. -/
theorem get_expiration_strict (contextName ns : String) (now : Int)
    (s : ByteStoreState) (store : List storeRegister) (r : storeRegister)
    (hread : (KubeTokenCache.read s).1 = Except.ok store)
    (hfind : store.find? (matchesKey contextName ns) = some r) :
    ((KubeTokenCache.Get contextName ns now s).1 =
        Except.ok (marshalIndentToken r.Token) ↔
      now < r.Token.expirationTimestamp) ∧
    (r.Token.expirationTimestamp = now →
      (KubeTokenCache.Get contextName ns now s).1 =
        Except.ok GoString.emptyString) := by
  rcases h : KubeTokenCache.read s with ⟨res, s1⟩
  rw [h] at hread
  simp only at hread
  subst hread
  constructor
  · by_cases hexp : now < r.Token.expirationTimestamp
    · simp [KubeTokenCache.Get, h, hfind, hexp]
    · simp [KubeTokenCache.Get, h, hfind, hexp, marshalIndentToken]
  · intro he
    have hexp : ¬now < r.Token.expirationTimestamp := by
      rw [he]; exact lt_irrefl now
    simp [KubeTokenCache.Get, h, hfind, hexp]

theorem get_expiration_strict_witness :
    (KubeTokenCache.Get "ctx1" "ns1" 100
        ⟨some (StoreBytes.encodedStore [⟨"ctx1", "ns1", ⟨100, "p"⟩⟩]),
         false, false, 0⟩).1 = Except.ok GoString.emptyString :=
  (get_expiration_strict "ctx1" "ns1" 100
      ⟨some (StoreBytes.encodedStore [⟨"ctx1", "ns1", ⟨100, "p"⟩⟩]),
       false, false, 0⟩
      [⟨"ctx1", "ns1", ⟨100, "p"⟩⟩] ⟨"ctx1", "ns1", ⟨100, "p"⟩⟩
      (by decide) (by decide)).2 rfl

/-- If some register matches, replacing the token of every matching
register yields a first match carrying the new token. -/
theorem find?_replace_of_any (contextName ns : String)
    (token : TokenRequest) :
    ∀ store : List storeRegister,
      store.any (matchesKey contextName ns) = true →
      ∃ r, (store.map fun x =>
          if matchesKey contextName ns x then { x with Token := token }
          else x).find? (matchesKey contextName ns) = some r ∧
        r.Token = token := by
  intro store
  induction store with
  | nil => simp
  | cons a l ih =>
      intro h
      by_cases ha : matchesKey contextName ns a = true
      · refine ⟨{ a with Token := token }, ?_, rfl⟩
        have hfa : matchesKey contextName ns { a with Token := token } =
            true := by rw [matchesKey_set_token]; exact ha
        simp [ha, hfa]
      · have ha' : matchesKey contextName ns a = false := by
          simpa using ha
        have h' : l.any (matchesKey contextName ns) = true := by
          simpa [ha'] using h
        obtain ⟨r, hr, ht⟩ := ih h'
        exact ⟨r, by simp [ha', hr], ht⟩

/-- The upsert always leaves a first matching register holding exactly
the written token. -/
theorem find?_upsert (contextName ns : String) (token : TokenRequest)
    (store : List storeRegister) :
    ∃ r, (upsertStore contextName ns token store).find?
        (matchesKey contextName ns) = some r ∧ r.Token = token := by
  unfold upsertStore
  by_cases hex : store.any (matchesKey contextName ns) = true
  · rw [if_pos hex]
    exact find?_replace_of_any contextName ns token store hex
  · rw [if_neg hex]
    refine ⟨⟨contextName, ns, token⟩, ?_, rfl⟩
    have hnone : store.find? (matchesKey contextName ns) = none := by
      rw [List.find?_eq_none]
      intro x hx hpx
      exact hex (List.any_eq_true.mpr ⟨x, hx, hpx⟩)
    rw [List.find?_append, hnone, Option.none_or]
    simp [matchesKey]

/-- Under pairwise-distinct keys at most one register matches a key. -/
theorem countP_le_one_of_pairwise (contextName ns : String) :
    ∀ store : List storeRegister, store.Pairwise distinctKeys →
      store.countP (matchesKey contextName ns) ≤ 1 := by
  intro store
  induction store with
  | nil => intro _; simp
  | cons a l ih =>
      intro h
      rw [List.pairwise_cons] at h
      obtain ⟨ha, hl⟩ := h
      rw [List.countP_cons]
      by_cases hpa : matchesKey contextName ns a = true
      · have hz : l.countP (matchesKey contextName ns) = 0 := by
          rw [List.countP_eq_zero]
          intro b hb hpb
          simp only [matchesKey, Bool.and_eq_true, beq_iff_eq] at hpa hpb
          exact ha b hb ⟨hpa.1.trans hpb.1.symm, hpa.2.trans hpb.2.symm⟩
        simp [hz, hpa]
      · have hpa' : matchesKey contextName ns a = false := by simpa using hpa
        have hle := ih hl
        simp [hpa']
        omega

/-- The upsert of a key into a store with pairwise-distinct keys holds
exactly one register for that key. -/
theorem upsert_countP_eq_one (contextName ns : String)
    (token : TokenRequest) (store : List storeRegister)
    (h : store.Pairwise distinctKeys) :
    (upsertStore contextName ns token store).countP
      (matchesKey contextName ns) = 1 := by
  unfold upsertStore
  by_cases hex : store.any (matchesKey contextName ns) = true
  · rw [if_pos hex, List.countP_map]
    have hfe : (matchesKey contextName ns ∘ fun x =>
        if matchesKey contextName ns x then { x with Token := token }
        else x) = matchesKey contextName ns := by
      funext x
      by_cases hx : matchesKey contextName ns x = true <;>
        simp [Function.comp, hx, matchesKey_set_token]
    rw [hfe]
    have hle := countP_le_one_of_pairwise contextName ns store h
    have hpos : 0 < store.countP (matchesKey contextName ns) :=
      List.countP_pos_iff.mpr (List.any_eq_true.mp hex)
    omega
  · rw [if_neg hex, List.countP_append]
    have hz : store.countP (matchesKey contextName ns) = 0 := by
      rw [List.countP_eq_zero]
      intro b hb hpb
      exact hex (List.any_eq_true.mpr ⟨b, hb, hpb⟩)
    simp [hz, List.countP_cons, matchesKey]

/-- Every matching register of an upsert carries the written token. -/
theorem upsert_token_eq (contextName ns : String) (token : TokenRequest)
    (store : List storeRegister) :
    ∀ r ∈ upsertStore contextName ns token store,
      matchesKey contextName ns r = true → r.Token = token := by
  unfold upsertStore
  by_cases hex : store.any (matchesKey contextName ns) = true
  · rw [if_pos hex]
    intro r hr hpr
    obtain ⟨x, hx, hfx⟩ := List.mem_map.mp hr
    by_cases hpx : matchesKey contextName ns x = true
    · rw [if_pos hpx] at hfx
      rw [← hfx]
    · rw [if_neg hpx] at hfx
      subst hfx
      exact absurd hpr hpx
  · rw [if_neg hex]
    intro r hr hpr
    rcases List.mem_append.mp hr with hmem | hmem
    · exact absurd (List.any_eq_true.mpr ⟨r, hmem, hpr⟩) hex
    · rw [List.mem_singleton] at hmem
      subst hmem
      rfl

/-- When the key already exists, the upsert rewrites the list pointwise:
each position keeps its register, the token being overwritten exactly at
the matching positions, and the length is unchanged. -/
theorem upsert_getElem_of_any (contextName ns : String)
    (token : TokenRequest) (store : List storeRegister)
    (hex : store.any (matchesKey contextName ns) = true) :
    (upsertStore contextName ns token store).length = store.length ∧
    ∀ i : Nat, ∀ r : storeRegister, store[i]? = some r →
      (upsertStore contextName ns token store)[i]? =
        some (if matchesKey contextName ns r then { r with Token := token }
          else r) := by
  unfold upsertStore
  rw [if_pos hex]
  refine ⟨by simp, ?_⟩
  intro i r hir
  rw [List.getElem?_map, hir]
  rfl

/-- Registers for every other key survive the token replacement unchanged
and in order. -/
theorem filter_not_replace (contextName ns : String)
    (token : TokenRequest) :
    ∀ store : List storeRegister,
      (store.map fun x =>
        if matchesKey contextName ns x then { x with Token := token }
        else x).filter (fun r => !matchesKey contextName ns r) =
      store.filter (fun r => !matchesKey contextName ns r) := by
  intro store
  induction store with
  | nil => rfl
  | cons a l ih =>
      by_cases ha : matchesKey contextName ns a = true
      · have hfa : matchesKey contextName ns { a with Token := token } =
            true := by rw [matchesKey_set_token]; exact ha
        simp [ha, hfa, ih]
      · have ha' : matchesKey contextName ns a = false := by simpa using ha
        simp [ha', ih]

/-- Registers for every other key survive the whole upsert unchanged and
in order. -/
theorem upsert_filter_others (contextName ns : String)
    (token : TokenRequest) (store : List storeRegister) :
    (upsertStore contextName ns token store).filter
        (fun r => !matchesKey contextName ns r) =
      store.filter (fun r => !matchesKey contextName ns r) := by
  unfold upsertStore
  by_cases hex : store.any (matchesKey contextName ns) = true
  · rw [if_pos hex]
    exact filter_not_replace contextName ns token store
  · rw [if_neg hex, List.filter_append]
    simp [matchesKey]

/-- Replacing the token is the identity on a list whose matching
registers already hold that token. -/
theorem replace_self (contextName ns : String) (token : TokenRequest) :
    ∀ store : List storeRegister,
      (∀ r ∈ store, matchesKey contextName ns r = true → r.Token = token) →
      (store.map fun x =>
        if matchesKey contextName ns x then { x with Token := token }
        else x) = store := by
  intro store
  induction store with
  | nil => intro _; rfl
  | cons a l ih =>
      intro h
      have hl := ih fun r hr hpr => h r (List.mem_cons_of_mem a hr) hpr
      by_cases ha : matchesKey contextName ns a = true
      · rcases a with ⟨cn, nsp, t⟩
        have ht : t = token := h ⟨cn, nsp, t⟩ (List.mem_cons_self _ _) ha
        subst ht
        simp [ha, hl]
      · simp [ha, hl]

/-- Upserting a key that is already present with the very token to write
changes nothing. -/
theorem upsert_eq_self (contextName ns : String) (token : TokenRequest)
    (l : List storeRegister)
    (hany : l.any (matchesKey contextName ns) = true)
    (htok : ∀ r ∈ l, matchesKey contextName ns r = true → r.Token = token) :
    upsertStore contextName ns token l = l := by
  unfold upsertStore
  rw [if_pos hany]
  exact replace_self contextName ns token l htok

/-- The in-memory upsert is idempotent. -/
theorem upsert_idem (contextName ns : String) (token : TokenRequest)
    (store : List storeRegister) :
    upsertStore contextName ns token
        (upsertStore contextName ns token store) =
      upsertStore contextName ns token store := by
  obtain ⟨r, hr, ht⟩ := find?_upsert contextName ns token store
  have hany : (upsertStore contextName ns token store).any
      (matchesKey contextName ns) = true :=
    List.any_eq_true.mpr
      ⟨r, List.mem_of_find?_eq_some hr, List.find?_some hr⟩
  exact upsert_eq_self contextName ns token _ hany
    (upsert_token_eq contextName ns token store)

/-- A successful setWithErr over a valid encoding: the state afterwards
holds exactly the encoded upsert and records one Set call. -/
theorem setWithErr_encoded (contextName ns : String) (token : TokenRequest)
    (s : ByteStoreState) (store : List storeRegister)
    (hc : s.contents = some (StoreBytes.encodedStore store))
    (hg : s.getFails = false) (hs : s.setFails = false) :
    KubeTokenCache.setWithErr contextName ns token s =
      (Except.ok (),
       { s with
           contents := some (StoreBytes.encodedStore
             (upsertStore contextName ns token store)),
           setCalls := s.setCalls + 1 }) := by
  simp [KubeTokenCache.setWithErr, read_encoded s store hc hg,
    FileByteStore.Set, hs]

/-- C1: over a store satisfying the at-most-one-entry-per-key invariant,
a successful setWithErr leaves exactly one register for the written key
and it holds the given token; an existing register is overwritten in
place at its original position, otherwise a fresh register is appended
at the end; registers for every other key keep their value and order;
and writing the same triple twice changes nothing further. -/
theorem setWithErr_upsert_unique (contextName ns : String)
    (token : TokenRequest) (s : ByteStoreState)
    (store : List storeRegister)
    (hc : s.contents = some (StoreBytes.encodedStore store))
    (hg : s.getFails = false) (hs : s.setFails = false)
    (huniq : store.Pairwise distinctKeys) :
    (KubeTokenCache.setWithErr contextName ns token s).1 = Except.ok () ∧
    (KubeTokenCache.setWithErr contextName ns token s).2.contents =
      some (StoreBytes.encodedStore
        (upsertStore contextName ns token store)) ∧
    (upsertStore contextName ns token store).countP
      (matchesKey contextName ns) = 1 ∧
    (∀ r ∈ upsertStore contextName ns token store,
      matchesKey contextName ns r = true → r.Token = token) ∧
    (store.any (matchesKey contextName ns) = true →
      (upsertStore contextName ns token store).length = store.length ∧
      ∀ i : Nat, ∀ r : storeRegister, store[i]? = some r →
        (upsertStore contextName ns token store)[i]? =
          some (if matchesKey contextName ns r then
            { r with Token := token } else r)) ∧
    (store.any (matchesKey contextName ns) = false →
      upsertStore contextName ns token store =
        store ++ [⟨contextName, ns, token⟩]) ∧
    ((upsertStore contextName ns token store).filter
        (fun r => !matchesKey contextName ns r) =
      store.filter (fun r => !matchesKey contextName ns r)) ∧
    (KubeTokenCache.setWithErr contextName ns token
        ((KubeTokenCache.setWithErr contextName ns token s).2)).2.contents =
      (KubeTokenCache.setWithErr contextName ns token s).2.contents := by
  have hset := setWithErr_encoded contextName ns token s store hc hg hs
  refine ⟨by rw [hset], by rw [hset],
    upsert_countP_eq_one contextName ns token store huniq,
    upsert_token_eq contextName ns token store,
    upsert_getElem_of_any contextName ns token store,
    fun hex => by unfold upsertStore; rw [if_neg (by simp [hex])],
    upsert_filter_others contextName ns token store, ?_⟩
  rw [hset]
  have hset2 := setWithErr_encoded contextName ns token
    { s with
        contents := some (StoreBytes.encodedStore
          (upsertStore contextName ns token store)),
        setCalls := s.setCalls + 1 }
    (upsertStore contextName ns token store) rfl hg hs
  rw [hset2]
  simp [upsert_idem]

theorem setWithErr_upsert_unique_witness :
    (KubeTokenCache.setWithErr "ctx1" "ns1" ⟨100, "new"⟩
        ⟨some (StoreBytes.encodedStore
           [⟨"ctx1", "ns1", ⟨0, "old"⟩⟩, ⟨"ctx2", "ns1", ⟨5, "other"⟩⟩]),
         false, false, 0⟩).1 = Except.ok () ∧
    (upsertStore "ctx1" "ns1" ⟨100, "new"⟩
        [⟨"ctx1", "ns1", ⟨0, "old"⟩⟩,
         ⟨"ctx2", "ns1", ⟨5, "other"⟩⟩]).countP
      (matchesKey "ctx1" "ns1") = 1 :=
  ⟨(setWithErr_upsert_unique "ctx1" "ns1" ⟨100, "new"⟩
      ⟨some (StoreBytes.encodedStore
         [⟨"ctx1", "ns1", ⟨0, "old"⟩⟩, ⟨"ctx2", "ns1", ⟨5, "other"⟩⟩]),
       false, false, 0⟩
      [⟨"ctx1", "ns1", ⟨0, "old"⟩⟩, ⟨"ctx2", "ns1", ⟨5, "other"⟩⟩]
      rfl rfl rfl (by decide)).1,
   (setWithErr_upsert_unique "ctx1" "ns1" ⟨100, "new"⟩
      ⟨some (StoreBytes.encodedStore
         [⟨"ctx1", "ns1", ⟨0, "old"⟩⟩, ⟨"ctx2", "ns1", ⟨5, "other"⟩⟩]),
       false, false, 0⟩
      [⟨"ctx1", "ns1", ⟨0, "old"⟩⟩, ⟨"ctx2", "ns1", ⟨5, "other"⟩⟩]
      rfl rfl rfl (by decide)).2.2.1⟩

/-- C2: storing a token that expires strictly after now through
setWithErr over a failure-free, readable byte store succeeds, and an
immediate Get for the same key returns, with no error, the re-encoded
token, which decodes back to exactly the token that was stored. -/
theorem set_get_round_trip (contextName ns : String)
    (token : TokenRequest) (now : Int) (s : ByteStoreState)
    (hg : s.getFails = false) (hs : s.setFails = false)
    (hr : readableContents s.contents = true)
    (hexp : now < token.expirationTimestamp) :
    (KubeTokenCache.setWithErr contextName ns token s).1 = Except.ok () ∧
    (KubeTokenCache.Get contextName ns now
        ((KubeTokenCache.setWithErr contextName ns token s).2)).1 =
      Except.ok (marshalIndentToken token) ∧
    unmarshalTokenRequest (marshalIndentToken token) = some token := by
  obtain ⟨store, hread, hset⟩ :=
    setWithErr_readable contextName ns token s hg hs hr
  refine ⟨by rw [hset], ?_, rfl⟩
  rw [hset]
  obtain ⟨r, hfind, htok⟩ := find?_upsert contextName ns token store
  have hread2 := read_encoded
    { s with
        contents := some (StoreBytes.encodedStore
          (upsertStore contextName ns token store)),
        setCalls := s.setCalls + 1 }
    (upsertStore contextName ns token store) rfl hg
  have hexp' : now < r.Token.expirationTimestamp := by
    rw [htok]; exact hexp
  simp [KubeTokenCache.Get, hread2, hfind, hexp', htok, hexp]

theorem set_get_round_trip_witness :
    (KubeTokenCache.Get "ctx1" "ns1" 50
        ((KubeTokenCache.setWithErr "ctx1" "ns1" ⟨100, "p"⟩
            ⟨some (StoreBytes.encodedStore []), false, false, 0⟩).2)).1 =
      Except.ok (marshalIndentToken ⟨100, "p"⟩) :=
  (set_get_round_trip "ctx1" "ns1" ⟨100, "p"⟩ 50
      ⟨some (StoreBytes.encodedStore []), false, false, 0⟩
      rfl rfl rfl (by decide)).2.1

/-- C4: on a 200 response with a body that decodes as a token, over a
failure-free readable store, GetKubeToken returns the raw body string
itself, not a re-encoding, and afterwards the store holds an encoded
register list whose first register for (contextName, namespace) carries
exactly the decoded token. -/
theorem getKubeToken_raw_body_and_caches (c : KubeTokenClient)
    (resp : HttpResponse) (body : GoString) (token : TokenRequest)
    (s : ByteStoreState)
    (h200 : resp.StatusCode = 200) (hbody : resp.Body = Except.ok body)
    (hdec : unmarshalTokenRequest body = some token)
    (hg : s.getFails = false) (hs : s.setFails = false)
    (hr : readableContents s.contents = true) :
    (KubeTokenClient.GetKubeToken c (HttpResult.response resp) s).1 =
      Except.ok body ∧
    ∃ entries r,
      (KubeTokenClient.GetKubeToken c
          (HttpResult.response resp) s).2.contents =
        some (StoreBytes.encodedStore entries) ∧
      entries.find? (matchesKey c.contextName c.ns) = some r ∧
      r.Token = token := by
  rw [getKubeToken_200_eq c resp body token s h200 hbody hdec]
  obtain ⟨store, hread, hset⟩ :=
    setWithErr_readable c.contextName c.ns token s hg hs hr
  obtain ⟨r, hfind, htok⟩ := find?_upsert c.contextName c.ns token store
  refine ⟨rfl, upsertStore c.contextName c.ns token store, r, ?_,
    hfind, htok⟩
  simp [KubeTokenCache.Set, hset]

theorem getKubeToken_raw_body_and_caches_witness :
    (KubeTokenClient.GetKubeToken ⟨"ctx1", "ns1"⟩
        (HttpResult.response ⟨200, "200 OK",
          Except.ok (GoString.tokenRaw ⟨100, "p"⟩ 1)⟩)
        ⟨some (StoreBytes.encodedStore []), false, false, 0⟩).1 =
      Except.ok (GoString.tokenRaw ⟨100, "p"⟩ 1) :=
  (getKubeToken_raw_body_and_caches ⟨"ctx1", "ns1"⟩
      ⟨200, "200 OK", Except.ok (GoString.tokenRaw ⟨100, "p"⟩ 1)⟩
      (GoString.tokenRaw ⟨100, "p"⟩ 1) ⟨100, "p"⟩
      ⟨some (StoreBytes.encodedStore []), false, false, 0⟩
      rfl rfl rfl rfl rfl rfl).1

example :
    (KubeTokenCache.Get "c" "n" 5
      ⟨some (StoreBytes.encodedStore
        [⟨"c", "n", ⟨10, "p"⟩⟩]), false, false, 0⟩).1 =
    Except.ok (GoString.tokenPretty ⟨10, "p"⟩) := by decide

example :
    (KubeTokenCache.Get "c" "n" 10
      ⟨some (StoreBytes.encodedStore
        [⟨"c", "n", ⟨10, "p"⟩⟩]), false, false, 0⟩).1 =
    Except.ok GoString.emptyString := by decide

example :
    (KubeTokenCache.setWithErr "c" "n" ⟨10, "p"⟩
      ⟨some (StoreBytes.encodedStore []), false, false, 0⟩).2.contents =
    some (StoreBytes.encodedStore [⟨"c", "n", ⟨10, "p"⟩⟩]) := by decide
